import Mathlib

/-! # Token staking dapp: profile view of the cached staking position

Shallow embedding of `src/js/Data/userTransaction.js`:

* `generateCountDown` (lines 7-18), the countdown string of a Unix timestamp;
* the template literal `UserProfileHtml` (lines 96-111): the address prefix
  `User.address.slice(0, 25)`, the two countdowns and the three amounts
  `x / 10 ** 18`.

Modelling decisions.

* Numbers are IEEE-754 binary64: `roundToDouble` rounds a rational to the
  nearest double, ties to even, with gradual underflow and overflow to
  infinity.  The finite doubles are carried by their rational value; the sign
  of zero is not tracked.  The integers of the cached record are read into
  Numbers by `toNumber`.
* The clock read `new Date().getTime()` is an explicit argument `now`, the
  millisecond count of the clock, read into a Number.  A time value is an
  integer with `|now| ≤ 8640000000000000`, which is below `2^53`.
* In `generateCountDown` the product `timestamp * 1000` and the subtraction
  `target - now` are binary64 operations.  The difference is an integer
  (proved below); on it `%` is exact and `Math.floor(a / b)` is the floor of
  the exact quotient (proved below for the divisions of lines 14 and 15), so
  minutes and seconds are computed on `Int`.
* A string is its sequence of UTF-16 code units, which is what `slice` and
  `length` index.
* The fixed markup of the template is left out: `UserProfileHtml` returns the
  six interpolated values in the order the template evaluates them.
-/

namespace TokenStaking

/-! ## JavaScript numbers -/

/-- A JavaScript Number: a finite IEEE-754 binary64 value (carried by the
rational it denotes), an infinity, or NaN. -/
inductive JSNumber where
  | fin (value : ℚ)
  | posInf
  | negInf
  | nan
  deriving DecidableEq

/-- Nearest integer to `x`, a tie going to the even neighbour. -/
def roundHalfEven (x : ℚ) : ℤ :=
  let f := ⌊x⌋
  if x - f < 1 / 2 then f
  else if 1 / 2 < x - f then f + 1
  else if f % 2 = 0 then f else f + 1

/-- IEEE-754 binary64 rounding, round-to-nearest ties-to-even: the exponent of
`x` is clamped below at `-1022` (subnormals), the significand is rounded to 53
bits, and a result of magnitude `2^1024` or more overflows to an infinity. -/
def roundToDouble (x : ℚ) : JSNumber :=
  if x = 0 then JSNumber.fin 0
  else
    let e : ℤ := max (Int.log 2 |x|) (-1022)
    let ulp : ℚ := 2 ^ (e - 52)
    let r : ℚ := roundHalfEven (x / ulp) * ulp
    if 2 ^ 1024 ≤ |r| then (if 0 < x then JSNumber.posInf else JSNumber.negInf)
    else JSNumber.fin r

/-- The Number a decimal integer denotes (a JSON number literal read by
`JSON.parse`, or a digit string coerced by `/`). -/
def toNumber (n : Int) : JSNumber := roundToDouble n

/-- JavaScript `x / y` on Numbers. -/
def JSNumber.div : JSNumber → JSNumber → JSNumber
  | JSNumber.nan, _ => JSNumber.nan
  | _, JSNumber.nan => JSNumber.nan
  | JSNumber.fin a, JSNumber.fin b =>
      if b = 0 then
        (if a = 0 then JSNumber.nan else if 0 < a then JSNumber.posInf else JSNumber.negInf)
      else roundToDouble (a / b)
  | JSNumber.fin _, _ => JSNumber.fin 0
  | JSNumber.posInf, JSNumber.fin b => if 0 ≤ b then JSNumber.posInf else JSNumber.negInf
  | JSNumber.negInf, JSNumber.fin b => if 0 ≤ b then JSNumber.negInf else JSNumber.posInf
  | _, _ => JSNumber.nan

/-- JavaScript `x * y` on Numbers. -/
def JSNumber.mul : JSNumber → JSNumber → JSNumber
  | JSNumber.nan, _ => JSNumber.nan
  | _, JSNumber.nan => JSNumber.nan
  | JSNumber.fin a, JSNumber.fin b => roundToDouble (a * b)
  | JSNumber.fin a, JSNumber.posInf =>
      if a = 0 then JSNumber.nan else if 0 < a then JSNumber.posInf else JSNumber.negInf
  | JSNumber.fin a, JSNumber.negInf =>
      if a = 0 then JSNumber.nan else if 0 < a then JSNumber.negInf else JSNumber.posInf
  | JSNumber.posInf, JSNumber.fin b =>
      if b = 0 then JSNumber.nan else if 0 < b then JSNumber.posInf else JSNumber.negInf
  | JSNumber.negInf, JSNumber.fin b =>
      if b = 0 then JSNumber.nan else if 0 < b then JSNumber.negInf else JSNumber.posInf
  | JSNumber.posInf, JSNumber.posInf => JSNumber.posInf
  | JSNumber.posInf, JSNumber.negInf => JSNumber.negInf
  | JSNumber.negInf, JSNumber.posInf => JSNumber.negInf
  | JSNumber.negInf, JSNumber.negInf => JSNumber.posInf

/-- JavaScript `x - y` on Numbers. -/
def JSNumber.sub : JSNumber → JSNumber → JSNumber
  | JSNumber.nan, _ => JSNumber.nan
  | _, JSNumber.nan => JSNumber.nan
  | JSNumber.fin a, JSNumber.fin b => roundToDouble (a - b)
  | JSNumber.fin _, JSNumber.posInf => JSNumber.negInf
  | JSNumber.fin _, JSNumber.negInf => JSNumber.posInf
  | JSNumber.posInf, JSNumber.fin _ => JSNumber.posInf
  | JSNumber.negInf, JSNumber.fin _ => JSNumber.negInf
  | JSNumber.posInf, JSNumber.negInf => JSNumber.posInf
  | JSNumber.negInf, JSNumber.posInf => JSNumber.negInf
  | JSNumber.posInf, JSNumber.posInf => JSNumber.nan
  | JSNumber.negInf, JSNumber.negInf => JSNumber.nan

/-- The constant `10 ** 18`, evaluated to `10^18`, which is a double
(`10^18 = 5^18 * 2^18` and `5^18 < 2^53`). -/
def tenPow18 : JSNumber := JSNumber.fin (10 ^ 18)

/-- Lines 104-106: the expression `baseUnits / 10 ** 18`. -/
def displayAmount (baseUnits : Int) : JSNumber :=
  (toNumber baseUnits).div tenPow18

/-! ## The countdown -/

/-- JavaScript `a % b` on integers: the remainder takes the sign of the dividend. -/
def jsRem (a b : Int) : Int := Int.tmod a b

/-- JavaScript `Math.floor(a / b)` on integers. -/
def mathFloorDiv (a b : Int) : Int := Int.fdiv a b

/-- Line 14: `Math.floor((difference % (1000 * 60 * 60)) / (1000 * 60))`. -/
def countDownMinutes (difference : Int) : Int :=
  mathFloorDiv (jsRem difference (1000 * 60 * 60)) (1000 * 60)

/-- Line 15: `Math.floor((difference % (1000 * 60)) / 1000)`. -/
def countDownSeconds (difference : Int) : Int :=
  mathFloorDiv (jsRem difference (1000 * 60)) 1000

/-- Line 17: the template literal with `minutes` and `seconds` interpolated. -/
def renderCountDown (minutes seconds : Int) : String :=
  toString minutes ++ "m" ++ toString seconds ++ "s"

/-- Lines 8-10: `now`, `target = timestamp * 1000` and
`difference = target - now`, in binary64.  `timestamp` is the integer stored in
the record and `now` the millisecond count of the clock. -/
def countDownDifference (timestamp now : Int) : JSNumber :=
  let now := toNumber now
  let target := (toNumber timestamp).mul (JSNumber.fin 1000)
  target.sub now

/-- Lines 7-18: `generateCountDown(timestamp)`, with the clock read `now`
(milliseconds) as an argument.  A finite difference is an integer, so its
floor is the difference itself.  An infinite or NaN difference is not `<= 0`
unless it is negative infinity; its remainder is NaN and both parts print as
`NaN`. -/
def generateCountDown (timestamp now : Int) : String :=
  match countDownDifference timestamp now with
  | JSNumber.fin difference =>
    if difference ≤ 0 then "0m0s"
    else
      let minutes := countDownMinutes ⌊difference⌋
      let seconds := countDownSeconds ⌊difference⌋
      renderCountDown minutes seconds
  | JSNumber.negInf => "0m0s"
  | JSNumber.posInf => "NaNmNaNs"
  | JSNumber.nan => "NaNmNaNs"

/-- Minutes as the specification words them: `floor(diffMs / 60000) mod 60`. -/
def specMinutes (diffMs : Int) : Int := (Int.fdiv diffMs 60000) % 60

/-- Seconds as the specification words them: `floor((diffMs mod 60000) / 1000)`. -/
def specSeconds (diffMs : Int) : Int := Int.fdiv (diffMs % 60000) 1000

/-! ## Strings -/

/-- A UTF-16 code unit. -/
abbrev CodeUnit := Fin 65536

/-- A JavaScript string: a sequence of UTF-16 code units. -/
abbrev JSString := List CodeUnit

/-- The code units of one character: itself below `0x10000`, else a high and a
low surrogate. -/
def utf16Char (c : Char) : JSString :=
  if c.toNat < 65536 then [Fin.ofNat c.toNat]
  else
    [Fin.ofNat (55296 + (c.toNat - 65536) / 1024), Fin.ofNat (56320 + (c.toNat - 65536) % 1024)]

/-- The JavaScript string of a text. -/
def utf16 (s : String) : JSString := s.data.flatMap utf16Char

/-- `String.prototype.slice(start, end)` with integer arguments: negative
indices count from the end, both are clamped to the string, and an empty
string is returned when the clamped range is empty. -/
def slice (s : JSString) (start stop : Int) : JSString :=
  let len : Int := s.length
  let lo := if start < 0 then max (len + start) 0 else min start len
  let hi := if stop < 0 then max (len + stop) 0 else min stop len
  if lo ≥ hi then []
  else (s.drop lo.toNat).take (hi - lo).toNat

/-! ## The profile view -/

/-- The record cached under the key `"User"`. -/
structure User where
  address : JSString
  lastRewardCalculationTime : Int
  lastStakeTime : Int
  rewardAmount : Int
  rewardsClaimedSoFar : Int
  stakeAmount : Int
  deriving DecidableEq

/-- The values interpolated into the template, in order. -/
structure ProfileView where
  address : JSString
  lastRewardCalculationTime : String
  lastStakeTime : String
  rewardAmount : JSNumber
  rewardsClaimedSoFar : JSNumber
  stakeAmount : JSNumber
  deriving DecidableEq

/-- What evaluating the template can throw. -/
inductive JSError where
  | TypeError
  deriving DecidableEq

/-- Lines 96-111: the template literal `UserProfileHtml`.  `user` is the value
of the constant `User` of line 2: `none` is `null`, what
`JSON.parse(localStorage.getItem("User"))` yields when the entry is missing.
Reading `User.address` on `null` throws a `TypeError` before anything else is
evaluated.  `now₁` and `now₂` are the clock reads of the two countdowns. -/
def UserProfileHtml (user : Option User) (now₁ now₂ : Int) : Except JSError ProfileView :=
  match user with
  | none => Except.error JSError.TypeError
  | some u =>
    Except.ok
      { address := slice u.address 0 25
        lastRewardCalculationTime := generateCountDown u.lastRewardCalculationTime now₁
        lastStakeTime := generateCountDown u.lastStakeTime now₂
        rewardAmount := displayAmount u.rewardAmount
        rewardsClaimedSoFar := displayAmount u.rewardsClaimedSoFar
        stakeAmount := displayAmount u.stakeAmount }

/-! ## Rounding lemmas -/

theorem roundHalfEven_sub_le (x : ℚ) : |(roundHalfEven x : ℚ) - x| ≤ 1 / 2 := by
  have h1 := Int.floor_le x
  have h2 := Int.lt_floor_add_one x
  unfold roundHalfEven
  simp only []
  split_ifs with ha hb hc
  · rw [abs_le]; constructor <;> linarith
  · rw [abs_le]; constructor <;> push_cast <;> linarith
  · rw [abs_le]; constructor <;> linarith
  · rw [abs_le]; constructor <;> push_cast <;> linarith

theorem roundHalfEven_eq_of (x : ℚ) (m : ℤ) (h : |x - m| < 1 / 2) : roundHalfEven x = m := by
  rw [abs_lt] at h
  obtain ⟨h1, h2⟩ := h
  have hf : ⌊x⌋ = m ∨ ⌊x⌋ = m - 1 := by
    by_cases hx : (m : ℚ) ≤ x
    · left
      rw [Int.floor_eq_iff]
      constructor <;> linarith
    · right
      rw [Int.floor_eq_iff]
      push_cast
      constructor <;> linarith
  unfold roundHalfEven
  simp only []
  rcases hf with hf | hf
  · rw [hf, if_pos (by linarith)]
  · rw [hf]
    push_cast
    rw [if_neg (by linarith), if_pos (by linarith)]
    ring

theorem roundHalfEven_intCast (n : ℤ) : roundHalfEven (n : ℚ) = n :=
  roundHalfEven_eq_of _ n (by simp)

theorem log_two_eq_of (x : ℚ) (e : ℤ) (h1 : (2 : ℚ) ^ e ≤ x) (h2 : x < (2 : ℚ) ^ (e + 1)) :
    Int.log 2 x = e := by
  have hx : 0 < x := lt_of_lt_of_le (by positivity) h1
  have ha : e ≤ Int.log 2 x := (Int.zpow_le_iff_le_log (by norm_num) hx).1 (by exact_mod_cast h1)
  have hb : Int.log 2 x < e + 1 := (Int.lt_zpow_iff_log_lt (by norm_num) hx).1 (by exact_mod_cast h2)
  omega

theorem roundToDouble_eq_of (x : ℚ) (e m : ℤ) (h1 : (2 : ℚ) ^ e ≤ |x|)
    (h2 : |x| < (2 : ℚ) ^ (e + 1)) (he : -1022 ≤ e)
    (hm : |x / 2 ^ (e - 52) - m| < 1 / 2) (hr : |(m : ℚ) * 2 ^ (e - 52)| < 2 ^ 1024) :
    roundToDouble x = JSNumber.fin (m * 2 ^ (e - 52)) := by
  have hx : x ≠ 0 := by
    intro h0
    rw [h0, abs_zero] at h1
    exact absurd h1 (not_le.2 (by positivity))
  unfold roundToDouble
  rw [if_neg hx]
  simp only []
  rw [log_two_eq_of |x| e h1 h2, max_eq_left he, roundHalfEven_eq_of _ m hm, if_neg (not_le.2 hr)]

/-- Rounding a rational of normal magnitude: the rounded value `r` is within
half a unit in the last place of `x`, and the result is `r` unless `r`
overflows. -/
theorem roundToDouble_normal (x : ℚ) (h1 : (2 : ℚ) ^ (-1022 : ℤ) ≤ |x|) :
    ∃ r : ℚ, |r - x| ≤ |x| / 2 ^ 53 ∧
      roundToDouble x = if (2 : ℚ) ^ 1024 ≤ |r| then
        (if 0 < x then JSNumber.posInf else JSNumber.negInf) else JSNumber.fin r := by
  have hx : x ≠ 0 := by
    intro h0
    rw [h0, abs_zero] at h1
    exact absurd h1 (not_le.2 (by positivity))
  have hpos : 0 < |x| := abs_pos.2 hx
  have hlo : (2 : ℚ) ^ Int.log 2 |x| ≤ |x| := by
    have := Int.zpow_log_le_self (b := 2) (by norm_num) hpos
    exact_mod_cast this
  have he : -1022 ≤ Int.log 2 |x| :=
    (Int.zpow_le_iff_le_log (by norm_num) hpos).1 (by exact_mod_cast h1)
  have hulp : (2 : ℚ) ^ (Int.log 2 |x| - 52) = 2 ^ Int.log 2 |x| / 2 ^ 52 := by
    rw [zpow_sub₀ (by norm_num)]
    norm_num
  have hupos : (0 : ℚ) < 2 ^ (Int.log 2 |x| - 52) := by positivity
  have hm := roundHalfEven_sub_le (x / 2 ^ (Int.log 2 |x| - 52))
  have hr : |(roundHalfEven (x / 2 ^ (Int.log 2 |x| - 52)) : ℚ) * 2 ^ (Int.log 2 |x| - 52) - x|
      ≤ |x| / 2 ^ 53 := by
    have heq : (roundHalfEven (x / 2 ^ (Int.log 2 |x| - 52)) : ℚ) * 2 ^ (Int.log 2 |x| - 52) - x
        = ((roundHalfEven (x / 2 ^ (Int.log 2 |x| - 52)) : ℚ) - x / 2 ^ (Int.log 2 |x| - 52))
          * 2 ^ (Int.log 2 |x| - 52) := by
      field_simp
    rw [heq, abs_mul, abs_of_pos hupos]
    calc |(roundHalfEven (x / 2 ^ (Int.log 2 |x| - 52)) : ℚ) - x / 2 ^ (Int.log 2 |x| - 52)|
          * 2 ^ (Int.log 2 |x| - 52)
        ≤ 1 / 2 * 2 ^ (Int.log 2 |x| - 52) := by
          exact mul_le_mul_of_nonneg_right hm (le_of_lt hupos)
      _ = 2 ^ Int.log 2 |x| / 2 ^ 53 := by rw [hulp]; ring
      _ ≤ |x| / 2 ^ 53 := by
          exact div_le_div_of_nonneg_right hlo (by positivity)
  refine ⟨(roundHalfEven (x / 2 ^ (Int.log 2 |x| - 52)) : ℚ) * 2 ^ (Int.log 2 |x| - 52), hr, ?_⟩
  unfold roundToDouble
  rw [if_neg hx]
  simp only []
  rw [max_eq_left he]

/-- Below `2^1023` in magnitude nothing overflows: the result is finite and
within relative error `2^-53`. -/
theorem roundToDouble_error (x : ℚ) (h1 : (2 : ℚ) ^ (-1022 : ℤ) ≤ |x|)
    (h2 : |x| < (2 : ℚ) ^ 1023) :
    ∃ r : ℚ, roundToDouble x = JSNumber.fin r ∧ |r - x| ≤ |x| / 2 ^ 53 := by
  obtain ⟨r, hr, hv⟩ := roundToDouble_normal x h1
  refine ⟨r, ?_, hr⟩
  rw [hv, if_neg]
  rw [not_le]
  have habs : |r| ≤ |x| + |x| / 2 ^ 53 := by
    have := abs_sub_abs_le_abs_sub r x
    linarith
  have : |x| / 2 ^ 53 < 2 ^ 1023 / 2 ^ 53 := div_lt_div_of_pos_right h2 (by positivity)
  have h3 : (2 : ℚ) ^ 1023 + 2 ^ 1023 / 2 ^ 53 < 2 ^ 1024 := by norm_num
  linarith

/-- A negative rational of normal magnitude rounds to a negative double or to
negative infinity. -/
theorem roundToDouble_neg (x : ℚ) (h1 : (2 : ℚ) ^ (-1022 : ℤ) ≤ |x|) (hx : x < 0) :
    roundToDouble x = JSNumber.negInf ∨
      ∃ r : ℚ, roundToDouble x = JSNumber.fin r ∧ r ≤ x / 2 := by
  obtain ⟨r, hr, hv⟩ := roundToDouble_normal x h1
  by_cases ho : (2 : ℚ) ^ 1024 ≤ |r|
  · left
    rw [hv, if_pos ho, if_neg (not_lt.2 (le_of_lt hx))]
  · right
    refine ⟨r, by rw [hv, if_neg ho], ?_⟩
    rw [abs_of_neg hx, abs_le] at hr
    have : -x / 2 ^ 53 ≤ -x / 2 :=
      div_le_div_of_nonneg_left (by linarith) (by norm_num) (by norm_num)
    linarith

theorem roundToDouble_intCast (n : ℤ) (h : |n| ≤ 2 ^ 53) :
    roundToDouble (n : ℚ) = JSNumber.fin n := by
  by_cases hn : n = 0
  · simp [hn, roundToDouble]
  have hpos : (0 : ℚ) < |(n : ℚ)| := abs_pos.2 (by exact_mod_cast hn)
  have h1 : (1 : ℚ) ≤ |(n : ℚ)| := by
    have : (1 : ℤ) ≤ |n| := Int.one_le_abs hn
    exact_mod_cast this
  have hq : |(n : ℚ)| ≤ 2 ^ 53 := by exact_mod_cast h
  have hlo : (2 : ℚ) ^ Int.log 2 |(n : ℚ)| ≤ |(n : ℚ)| := by
    have := Int.zpow_log_le_self (b := 2) (by norm_num) hpos
    exact_mod_cast this
  have hhi : |(n : ℚ)| < (2 : ℚ) ^ (Int.log 2 |(n : ℚ)| + 1) := by
    have := Int.lt_zpow_succ_log_self (b := 2) (by norm_num) |(n : ℚ)|
    exact_mod_cast this
  have he0 : 0 ≤ Int.log 2 |(n : ℚ)| :=
    (Int.zpow_le_iff_le_log (by norm_num) hpos).1 (by simpa using h1)
  have he1 : Int.log 2 |(n : ℚ)| ≤ 53 := by
    have : (2 : ℚ) ^ Int.log 2 |(n : ℚ)| ≤ 2 ^ (53 : ℤ) := le_trans hlo (by exact_mod_cast hq)
    exact (zpow_le_zpow_iff_right₀ (by norm_num)).1 this
  obtain ⟨k, hk⟩ := Int.eq_ofNat_of_zero_le he0
  have hk53 : k ≤ 53 := by omega
  -- the quotient by the unit in the last place is an integer
  have hint : ∃ m : ℤ, (n : ℚ) / 2 ^ (Int.log 2 |(n : ℚ)| - 52) = m := by
    rcases Nat.lt_or_ge k 53 with hlt | hge
    · refine ⟨n * 2 ^ (52 - k), ?_⟩
      rw [hk, zpow_sub₀ (by norm_num)]
      push_cast
      have : (2 : ℚ) ^ (52 : ℤ) = 2 ^ k * 2 ^ (52 - k) := by
        rw [← pow_add]
        norm_cast
        congr 1
        omega
      rw [this, zpow_natCast]
      field_simp
      ring
    · have hk' : k = 53 := by omega
      have hlog : Int.log 2 |(n : ℚ)| = 53 := by omega
      rw [hlog] at hlo
      have habs : |(n : ℚ)| = 2 ^ 53 := le_antisymm hq (by exact_mod_cast hlo)
      rcases abs_choice (n : ℚ) with hc | hc
      · refine ⟨2 ^ 52, ?_⟩
        rw [hlog, ← hc, habs]
        norm_num
      · refine ⟨-2 ^ 52, ?_⟩
        have : (n : ℚ) = -2 ^ 53 := by linarith
        rw [hlog, this]
        norm_num
  obtain ⟨m, hm⟩ := hint
  have hupos : (0 : ℚ) < 2 ^ (Int.log 2 |(n : ℚ)| - 52) := by positivity
  have hval : (m : ℚ) * 2 ^ (Int.log 2 |(n : ℚ)| - 52) = n := by
    rw [← hm]
    field_simp
  have := roundToDouble_eq_of (n : ℚ) (Int.log 2 |(n : ℚ)|) m hlo hhi (by omega)
    (by rw [hm]; simp) (by rw [hval]; exact lt_of_le_of_lt hq (by norm_num))
  rw [this, hval]

/-! ## The floor of a rounded quotient -/

/-- The integer model of `Math.floor(a / b)` agrees with the double division:
for integers below `2^26` (the countdown divides numbers below `3600000` by
`60000` and `1000`) the floor of the rounded quotient is the floor of the exact
quotient. -/
theorem mathFloorDiv_exact (a b : ℤ) (ha : 0 ≤ a) (ha2 : a < 2 ^ 26) (hb : 0 < b)
    (hb2 : b < 2 ^ 26) :
    ∃ d : ℚ, (toNumber a).div (toNumber b) = JSNumber.fin d ∧ ⌊d⌋ = mathFloorDiv a b := by
  have hta : toNumber a = JSNumber.fin a :=
    roundToDouble_intCast a (by rw [abs_of_nonneg ha]; omega)
  have htb : toNumber b = JSNumber.fin b :=
    roundToDouble_intCast b (by rw [abs_of_pos hb]; omega)
  have hbq : (0 : ℚ) < b := by exact_mod_cast hb
  have hbq2 : (b : ℚ) < 2 ^ 26 := by exact_mod_cast hb2
  have haq : (0 : ℚ) ≤ a := by exact_mod_cast ha
  have haq2 : (a : ℚ) < 2 ^ 26 := by exact_mod_cast ha2
  have hdiv : (toNumber a).div (toNumber b) = roundToDouble ((a : ℚ) / b) := by
    rw [hta, htb]
    simp [JSNumber.div, ne_of_gt hbq]
  have hfd : mathFloorDiv a b = a / b := Int.fdiv_eq_ediv a (le_of_lt hb)
  have hdecomp : (a : ℚ) / b = ((a / b : ℤ) : ℚ) + ((a % b : ℤ) : ℚ) / b := by
    have h := Int.emod_add_ediv a b
    have hq : ((a % b : ℤ) : ℚ) + (b : ℚ) * ((a / b : ℤ) : ℚ) = a := by exact_mod_cast h
    field_simp
    linarith
  have hq0 : 0 ≤ a / b := Int.ediv_nonneg ha (le_of_lt hb)
  have hqle : a / b ≤ a := Int.ediv_le_self b ha
  have hr0 : 0 ≤ a % b := Int.emod_nonneg a (ne_of_gt hb)
  have hrlt : a % b < b := Int.emod_lt_of_pos a hb
  rw [hdiv, hfd]
  by_cases hr : a % b = 0
  · -- the quotient is an integer, hence a double
    have hx : (a : ℚ) / b = ((a / b : ℤ) : ℚ) := by rw [hdecomp, hr]; simp
    rw [hx, roundToDouble_intCast (a / b) (by rw [abs_of_nonneg hq0]; omega)]
    exact ⟨_, rfl, Int.floor_intCast _⟩
  · have hr1 : (1 : ℚ) ≤ ((a % b : ℤ) : ℚ) := by
      have : (1 : ℤ) ≤ a % b := by omega
      exact_mod_cast this
    have hr2 : ((a % b : ℤ) : ℚ) ≤ b - 1 := by
      have : a % b ≤ b - 1 := by omega
      exact_mod_cast this
    have hfrac1 : (1 : ℚ) / 2 ^ 26 < ((a % b : ℤ) : ℚ) / b := by
      rw [div_lt_div_iff₀ (by positivity) hbq]
      linarith
    have hfrac2 : ((a % b : ℤ) : ℚ) / b < 1 - 1 / 2 ^ 26 := by
      rw [div_lt_iff₀ hbq]
      have : (b : ℚ) / 2 ^ 26 < 1 := by
        rw [div_lt_iff₀ (by positivity)]
        linarith
      have e : (1 - 1 / 2 ^ 26) * (b : ℚ) = b - b / 2 ^ 26 := by ring
      rw [e]
      linarith
    have hqq0 : (0 : ℚ) ≤ ((a / b : ℤ) : ℚ) := by exact_mod_cast hq0
    have hxpos : (0 : ℚ) < (a : ℚ) / b := by rw [hdecomp]; linarith [show (0 : ℚ) < 1 / 2 ^ 26 by positivity]
    have hxlt : (a : ℚ) / b < 2 ^ 26 := by
      rw [div_lt_iff₀ hbq]
      have : (1 : ℚ) ≤ b := by
        have : (1 : ℤ) ≤ b := by omega
        exact_mod_cast this
      nlinarith
    have hlow : (2 : ℚ) ^ (-1022 : ℤ) ≤ |(a : ℚ) / b| := by
      rw [abs_of_pos hxpos, hdecomp]
      have h26 : (2 : ℚ) ^ (-1022 : ℤ) ≤ 2 ^ (-26 : ℤ) :=
        zpow_le_zpow_right₀ (by norm_num) (by norm_num)
      have h26b : (2 : ℚ) ^ (-26 : ℤ) = 1 / 2 ^ 26 := by
        rw [zpow_neg]
        norm_num
      rw [h26b] at h26
      linarith
    have hhigh : |(a : ℚ) / b| < 2 ^ 1023 := by
      rw [abs_of_pos hxpos]
      exact lt_trans hxlt (by norm_num)
    obtain ⟨d, hd, he⟩ := roundToDouble_error ((a : ℚ) / b) hlow hhigh
    refine ⟨d, hd, ?_⟩
    rw [abs_of_pos hxpos] at he
    have hsmall : (a : ℚ) / b / 2 ^ 53 < 1 / 2 ^ 27 := by
      rw [div_lt_div_iff₀ (by positivity) (by positivity)]
      have : (a : ℚ) / b * 2 ^ 27 < 2 ^ 26 * 2 ^ 27 :=
        mul_lt_mul_of_pos_right hxlt (by positivity)
      linarith
    rw [abs_le] at he
    rw [Int.floor_eq_iff]
    rw [hdecomp] at he hsmall
    constructor
    · have : (1 : ℚ) / 2 ^ 27 < 1 / 2 ^ 26 := by norm_num
      linarith
    · have : (1 : ℚ) / 2 ^ 27 < 1 / 2 ^ 26 := by norm_num
      linarith

theorem two_zpow_le_tenth : (2 : ℚ) ^ (-1022 : ℤ) ≤ 1 / 2 / 10 ^ 18 := by
  have h1 : (2 : ℚ) ^ (-1022 : ℤ) ≤ 2 ^ (-64 : ℤ) :=
    zpow_le_zpow_right₀ (by norm_num) (by norm_num)
  have h2 : (2 : ℚ) ^ (-64 : ℤ) ≤ 1 / 2 / 10 ^ 18 := by
    rw [zpow_neg]
    norm_num
  exact le_trans h1 h2

/-! ## Integers and multiples of 1000 -/

theorem roundToDouble_zero : roundToDouble 0 = JSNumber.fin 0 := by
  simp [roundToDouble]

/-- A negative rational of normal magnitude rounds to negative infinity or to
a double within relative error `2^-53` of it. -/
theorem roundToDouble_neg_rel (x : ℚ) (h1 : (2 : ℚ) ^ (-1022 : ℤ) ≤ |x|) (hx : x < 0) :
    roundToDouble x = JSNumber.negInf ∨
      ∃ r : ℚ, roundToDouble x = JSNumber.fin r ∧ r ≤ x - x / 2 ^ 53 := by
  obtain ⟨r, hr, hv⟩ := roundToDouble_normal x h1
  by_cases ho : (2 : ℚ) ^ 1024 ≤ |r|
  · left
    rw [hv, if_pos ho, if_neg (not_lt.2 (le_of_lt hx))]
  · right
    refine ⟨r, by rw [hv, if_neg ho], ?_⟩
    rw [abs_of_neg hx, abs_le] at hr
    have e : -x / 2 ^ 53 = -(x / 2 ^ 53) := by ring
    linarith

/-- The form of a finite result: the rounded significand times the unit in
the last place. -/
theorem roundToDouble_fin_form (x r : ℚ) (hx : x ≠ 0) (h : roundToDouble x = JSNumber.fin r) :
    r = (roundHalfEven (x / 2 ^ (max (Int.log 2 |x|) (-1022) - 52)) : ℚ)
      * 2 ^ (max (Int.log 2 |x|) (-1022) - 52) := by
  unfold roundToDouble at h
  rw [if_neg hx] at h
  simp only [] at h
  split_ifs at h with h1 h2
  · injection h with h
    exact h.symm

/-- Rounding an integer gives an integer. -/
theorem roundToDouble_intCast_isInt (n : ℤ) (r : ℚ) (h : roundToDouble (n : ℚ) = JSNumber.fin r) :
    ∃ k : ℤ, r = k := by
  by_cases hs : |n| ≤ 2 ^ 53
  · rw [roundToDouble_intCast n hs] at h
    injection h with h
    exact ⟨n, h.symm⟩
  · have hn : (n : ℚ) ≠ 0 := by
      intro h0
      have : n = 0 := by exact_mod_cast h0
      rw [this] at hs
      norm_num at hs
    have hbig : (2 : ℚ) ^ (53 : ℤ) ≤ |(n : ℚ)| := by
      have : (2 : ℤ) ^ 53 ≤ |n| := by omega
      have h2 : ((2 : ℤ) ^ 53 : ℚ) ≤ ((|n| : ℤ) : ℚ) := by exact_mod_cast this
      rw [Int.cast_abs] at h2
      exact_mod_cast h2
    have hlog : 53 ≤ Int.log 2 |(n : ℚ)| :=
      (Int.zpow_le_iff_le_log (by norm_num) (abs_pos.2 hn)).1 (by exact_mod_cast hbig)
    have hform := roundToDouble_fin_form (n : ℚ) r hn h
    rw [max_eq_left (by omega)] at hform
    obtain ⟨j, hj⟩ := Int.eq_ofNat_of_zero_le (show 0 ≤ Int.log 2 |(n : ℚ)| - 52 by omega)
    rw [hj, zpow_natCast] at hform
    exact ⟨roundHalfEven ((n : ℚ) / 2 ^ j) * 2 ^ j, by rw [hform]; push_cast; rfl⟩

/-- A multiple of 1000 below `2^56` in magnitude is a double: it is a multiple
of 8. -/
theorem roundToDouble_mul_thousand (t : ℤ) (h : |t * 1000| < 2 ^ 56) :
    roundToDouble ((t : ℚ) * 1000) = JSNumber.fin ((t : ℚ) * 1000) := by
  by_cases ht : t = 0
  · rw [ht]
    simp [roundToDouble_zero]
  have hne : (t : ℚ) * 1000 ≠ 0 := by
    have : (t : ℚ) ≠ 0 := by exact_mod_cast ht
    positivity
  have hpos : (0 : ℚ) < |(t : ℚ) * 1000| := abs_pos.2 hne
  have hq : |(t : ℚ) * 1000| < 2 ^ 56 := by
    have : ((|t * 1000| : ℤ) : ℚ) < ((2 ^ 56 : ℤ) : ℚ) := Int.cast_lt.2 h
    rw [Int.cast_abs] at this
    push_cast at this
    exact this
  have h1 : (1 : ℚ) ≤ |(t : ℚ) * 1000| := by
    have : (1 : ℤ) ≤ |t * 1000| := Int.one_le_abs (by omega)
    have h2 : ((1 : ℤ) : ℚ) ≤ ((|t * 1000| : ℤ) : ℚ) := Int.cast_le.2 this
    rw [Int.cast_abs] at h2
    push_cast at h2
    exact h2
  have hlo : (2 : ℚ) ^ Int.log 2 |(t : ℚ) * 1000| ≤ |(t : ℚ) * 1000| := by
    have := Int.zpow_log_le_self (b := 2) (by norm_num) hpos
    exact_mod_cast this
  have hhi : |(t : ℚ) * 1000| < (2 : ℚ) ^ (Int.log 2 |(t : ℚ) * 1000| + 1) := by
    have := Int.lt_zpow_succ_log_self (b := 2) (by norm_num) |(t : ℚ) * 1000|
    exact_mod_cast this
  have he0 : 0 ≤ Int.log 2 |(t : ℚ) * 1000| :=
    (Int.zpow_le_iff_le_log (by norm_num) hpos).1 (by simpa using h1)
  have he1 : Int.log 2 |(t : ℚ) * 1000| < 56 := by
    have : (2 : ℚ) ^ Int.log 2 |(t : ℚ) * 1000| < 2 ^ (56 : ℤ) :=
      lt_of_le_of_lt hlo (by exact_mod_cast hq)
    exact (zpow_lt_zpow_iff_right₀ (by norm_num)).1 this
  obtain ⟨k, hk⟩ := Int.eq_ofNat_of_zero_le he0
  have hk56 : k < 56 := by omega
  have hint : ∃ m : ℤ, (t : ℚ) * 1000 / 2 ^ (Int.log 2 |(t : ℚ) * 1000| - 52) = m := by
    rcases Nat.lt_or_ge k 53 with hlt | hge
    · refine ⟨t * 1000 * 2 ^ (52 - k), ?_⟩
      rw [hk, zpow_sub₀ (by norm_num)]
      push_cast
      have : (2 : ℚ) ^ (52 : ℤ) = 2 ^ k * 2 ^ (52 - k) := by
        rw [← pow_add]
        norm_cast
        congr 1
        omega
      rw [this, zpow_natCast]
      field_simp
      ring
    · have hcases : k = 53 ∨ k = 54 ∨ k = 55 := by omega
      rcases hcases with hc | hc | hc
      · refine ⟨t * 500, ?_⟩
        rw [hk, hc]
        push_cast
        norm_num
        ring
      · refine ⟨t * 250, ?_⟩
        rw [hk, hc]
        push_cast
        norm_num
        ring
      · refine ⟨t * 125, ?_⟩
        rw [hk, hc]
        push_cast
        norm_num
        ring
  obtain ⟨m, hm⟩ := hint
  have hupos : (0 : ℚ) < 2 ^ (Int.log 2 |(t : ℚ) * 1000| - 52) := by positivity
  have hval : (m : ℚ) * 2 ^ (Int.log 2 |(t : ℚ) * 1000| - 52) = (t : ℚ) * 1000 := by
    rw [← hm]
    field_simp
  have := roundToDouble_eq_of ((t : ℚ) * 1000) (Int.log 2 |(t : ℚ) * 1000|) m hlo hhi (by omega)
    (by rw [hm]; simp) (by rw [hval]; exact lt_trans hq (by norm_num))
  rw [this, hval]

/-! ## The difference of the countdown -/

theorem countDown_parts (d : Int) (h : 0 < d) :
    countDownMinutes d = (d % 3600000) / 60000 ∧ countDownSeconds d = (d % 60000) / 1000 := by
  unfold countDownMinutes countDownSeconds mathFloorDiv jsRem
  rw [Int.tmod_eq_emod (le_of_lt h) (by norm_num), Int.tmod_eq_emod (le_of_lt h) (by norm_num),
    Int.fdiv_eq_ediv _ (by norm_num), Int.fdiv_eq_ediv _ (by norm_num)]
  constructor <;> norm_num

/-- The difference of lines 8-10 is an integer whenever it is finite. -/
theorem countDownDifference_isInt (timestamp now : Int) (d : ℚ)
    (h : countDownDifference timestamp now = JSNumber.fin d) : ∃ k : ℤ, d = k := by
  unfold countDownDifference toNumber at h
  simp only [] at h
  cases hT : roundToDouble (timestamp : ℚ) with
  | fin T =>
    obtain ⟨a, ha⟩ := roundToDouble_intCast_isInt timestamp T hT
    rw [hT] at h
    cases hR : roundToDouble (T * 1000) with
    | fin R =>
      have hR' : roundToDouble (((a * 1000 : ℤ)) : ℚ) = JSNumber.fin R := by
        rw [← hR, ha]; push_cast; rfl
      obtain ⟨b, hb⟩ := roundToDouble_intCast_isInt _ R hR'
      cases hN : roundToDouble (now : ℚ) with
      | fin N =>
        obtain ⟨c, hc⟩ := roundToDouble_intCast_isInt now N hN
        simp only [JSNumber.mul, hR, hN, JSNumber.sub] at h
        have h' : roundToDouble (((b - c : ℤ)) : ℚ) = JSNumber.fin d := by
          rw [← h, hb, hc]; push_cast; rfl
        exact roundToDouble_intCast_isInt _ d h'
      | posInf => simp [JSNumber.mul, hR, hN, JSNumber.sub] at h
      | negInf => simp [JSNumber.mul, hR, hN, JSNumber.sub] at h
      | nan => simp [JSNumber.mul, hR, hN, JSNumber.sub] at h
    | posInf =>
      cases hN : roundToDouble (now : ℚ) <;> simp [JSNumber.mul, hR, hN, JSNumber.sub] at h
    | negInf =>
      cases hN : roundToDouble (now : ℚ) <;> simp [JSNumber.mul, hR, hN, JSNumber.sub] at h
    | nan =>
      cases hN : roundToDouble (now : ℚ) <;> simp [JSNumber.mul, hR, hN, JSNumber.sub] at h
  | posInf =>
    rw [hT] at h
    cases hN : roundToDouble (now : ℚ) <;> simp [JSNumber.mul, hN, JSNumber.sub] at h
  | negInf =>
    rw [hT] at h
    cases hN : roundToDouble (now : ℚ) <;> simp [JSNumber.mul, hN, JSNumber.sub] at h
  | nan =>
    rw [hT] at h
    cases hN : roundToDouble (now : ℚ) <;> simp [JSNumber.mul, hN, JSNumber.sub] at h

/-- Where the product is below `2^56` and the clock and the difference are
within `2^53`, lines 8-10 compute the exact difference. -/
theorem countDownDifference_exact (timestamp now : Int) (ht : |timestamp * 1000| < 2 ^ 56)
    (hnow : |now| ≤ 2 ^ 53) (hd : |timestamp * 1000 - now| ≤ 2 ^ 53) :
    countDownDifference timestamp now = JSNumber.fin ((timestamp * 1000 - now : ℤ) : ℚ) := by
  have hts : |timestamp| ≤ 2 ^ 53 := by
    rw [abs_le] at *
    constructor <;> omega
  unfold countDownDifference toNumber
  simp only []
  rw [roundToDouble_intCast timestamp hts, roundToDouble_intCast now hnow]
  simp only [JSNumber.mul]
  rw [roundToDouble_mul_thousand timestamp ht]
  simp only [JSNumber.sub]
  have := roundToDouble_intCast (timestamp * 1000 - now) hd
  push_cast at this
  rw [this]
  push_cast
  rfl

/-- In the exact range the countdown is the integer computation. -/
theorem generateCountDown_exact (timestamp now : Int) (ht : |timestamp * 1000| < 2 ^ 56)
    (hnow : |now| ≤ 2 ^ 53) (hd : |timestamp * 1000 - now| ≤ 2 ^ 53) :
    generateCountDown timestamp now =
      if timestamp * 1000 - now ≤ 0 then "0m0s"
      else renderCountDown (countDownMinutes (timestamp * 1000 - now))
        (countDownSeconds (timestamp * 1000 - now)) := by
  unfold generateCountDown
  rw [countDownDifference_exact timestamp now ht hnow hd]
  simp only [Int.floor_intCast]
  by_cases h : timestamp * 1000 - now ≤ 0
  · have hq : ((timestamp * 1000 - now : ℤ) : ℚ) ≤ 0 := by exact_mod_cast h
    rw [if_pos hq, if_pos h]
  · have hq : ¬ ((timestamp * 1000 - now : ℤ) : ℚ) ≤ 0 := by
      intro hc
      exact h (by exact_mod_cast hc)
    rw [if_neg hq, if_neg h]

/-- Lines 8-10 step by step, when every intermediate value is finite. -/
theorem countDownDifference_eq (timestamp now : Int) (T P N D : ℚ)
    (hT : toNumber timestamp = JSNumber.fin T) (hP : roundToDouble (T * 1000) = JSNumber.fin P)
    (hN : toNumber now = JSNumber.fin N) (hD : roundToDouble (P - N) = JSNumber.fin D) :
    countDownDifference timestamp now = JSNumber.fin D := by
  unfold countDownDifference
  simp only [hT, hN, JSNumber.mul, hP, JSNumber.sub, hD]

/-- A positive finite difference `k` is split into minutes and seconds. -/
theorem generateCountDown_of_pos (timestamp now k : Int)
    (h : countDownDifference timestamp now = JSNumber.fin (k : ℚ)) (hk : 0 < k) :
    generateCountDown timestamp now
      = renderCountDown (countDownMinutes k) (countDownSeconds k) := by
  have hq : ¬ ((k : ℚ) ≤ 0) := by
    intro hc
    have : k ≤ 0 := by exact_mod_cast hc
    omega
  unfold generateCountDown
  rw [h]
  simp only [Int.floor_intCast]
  rw [if_neg hq]

/-- A difference that is negative infinity or a non-positive double gives the
expired string. -/
theorem generateCountDown_of_nonpos (timestamp now : Int)
    (h : countDownDifference timestamp now = JSNumber.negInf ∨
      ∃ d : ℚ, countDownDifference timestamp now = JSNumber.fin d ∧ d ≤ 0) :
    generateCountDown timestamp now = "0m0s" := by
  unfold generateCountDown
  rcases h with h | ⟨d, h, hd⟩
  · rw [h]
  · rw [h]
    simp only []
    rw [if_pos hd]

/-- With a valid time value on the clock, a target not after the clock gives a
difference that is negative infinity or a non-positive double. -/
theorem countDownDifference_nonpos (timestamp now : Int) (hnow : |now| ≤ 8640000000000000)
    (h : timestamp * 1000 - now ≤ 0) :
    countDownDifference timestamp now = JSNumber.negInf ∨
      ∃ d : ℚ, countDownDifference timestamp now = JSNumber.fin d ∧ d ≤ 0 := by
  have hnow2 : |now| ≤ 2 ^ 53 := le_trans hnow (by norm_num)
  have hN : roundToDouble (now : ℚ) = JSNumber.fin now := roundToDouble_intCast now hnow2
  rw [abs_le] at hnow
  have hnq1 : (-8640000000000000 : ℚ) ≤ now := by exact_mod_cast hnow.1
  have hnq2 : (now : ℚ) ≤ 8640000000000000 := by exact_mod_cast hnow.2
  -- a negative difference of normal magnitude
  have hneg : ∀ x : ℚ, x ≤ -1 → roundToDouble x = JSNumber.negInf ∨
      ∃ d : ℚ, roundToDouble x = JSNumber.fin d ∧ d ≤ 0 := by
    intro x hx
    have hlow : (2 : ℚ) ^ (-1022 : ℤ) ≤ |x| := by
      rw [abs_of_neg (by linarith)]
      have h1 : (1 : ℚ) / 2 / 10 ^ 18 ≤ 1 := by norm_num
      exact le_trans two_zpow_le_tenth (le_trans h1 (by linarith))
    rcases roundToDouble_neg x hlow (by linarith) with hc | ⟨r, hr, hle⟩
    · left; exact hc
    · right; exact ⟨r, hr, by linarith⟩
  by_cases hbig : -2 ^ 53 ≤ timestamp * 1000
  · -- the target is exact
    have ht : |timestamp * 1000| < 2 ^ 56 := by
      rw [abs_lt]
      constructor <;> omega
    have hts : |timestamp| ≤ 2 ^ 53 := by
      rw [abs_le]
      constructor <;> omega
    have hdiff : countDownDifference timestamp now
        = roundToDouble (((timestamp * 1000 - now : ℤ)) : ℚ) := by
      unfold countDownDifference toNumber
      simp only []
      rw [roundToDouble_intCast timestamp hts, hN]
      simp only [JSNumber.mul]
      rw [roundToDouble_mul_thousand timestamp ht]
      simp only [JSNumber.sub]
      push_cast
      rfl
    rw [hdiff]
    rcases lt_or_eq_of_le h with hlt | heq
    · exact hneg _ (by
        have : timestamp * 1000 - now ≤ -1 := by omega
        exact_mod_cast this)
    · right
      rw [heq]
      exact ⟨0, by simpa using roundToDouble_zero, le_refl _⟩
  · -- the target is below every time value
    have hbig' : timestamp * 1000 < -2 ^ 53 := by omega
    have htq : (timestamp : ℚ) * 1000 < -2 ^ 53 := by exact_mod_cast hbig'
    have htneg : (timestamp : ℚ) < 0 := by linarith
    have htlow : (2 : ℚ) ^ (-1022 : ℤ) ≤ |(timestamp : ℚ)| := by
      rw [abs_of_neg htneg]
      have h1 : (1 : ℚ) / 2 / 10 ^ 18 ≤ 1 := by norm_num
      have h2 : (timestamp : ℚ) ≤ -1 := by
        have : timestamp ≤ -1 := by omega
        exact_mod_cast this
      exact le_trans two_zpow_le_tenth (le_trans h1 (by linarith))
    unfold countDownDifference toNumber
    simp only []
    rw [hN]
    rcases roundToDouble_neg_rel (timestamp : ℚ) htlow htneg with hT | ⟨T, hT, hTle⟩
    · left
      rw [hT]
      simp [JSNumber.mul, JSNumber.sub]
    · rw [hT]
      simp only [JSNumber.mul]
      have hx : T * 1000 ≤ -2 ^ 53 + 1 := by
        have e : ((timestamp : ℚ) - (timestamp : ℚ) / 2 ^ 53) * 1000
            = (timestamp : ℚ) * 1000 * (1 - 1 / 2 ^ 53) := by ring
        have h3 : T * 1000 ≤ (timestamp : ℚ) * 1000 * (1 - 1 / 2 ^ 53) := by
          rw [← e]
          exact mul_le_mul_of_nonneg_right hTle (by norm_num)
        have h4 : (timestamp : ℚ) * 1000 * (1 - 1 / 2 ^ 53) ≤ -2 ^ 53 * (1 - 1 / 2 ^ 53) :=
          mul_le_mul_of_nonneg_right (le_of_lt htq) (by norm_num)
        have h5 : (-2 ^ 53 : ℚ) * (1 - 1 / 2 ^ 53) = -2 ^ 53 + 1 := by norm_num
        linarith
      have hxneg : T * 1000 < 0 := by
        have : (-2 ^ 53 + 1 : ℚ) < 0 := by norm_num
        linarith
      have hxlow : (2 : ℚ) ^ (-1022 : ℤ) ≤ |T * 1000| := by
        rw [abs_of_neg hxneg]
        have h1 : (1 : ℚ) / 2 / 10 ^ 18 ≤ 1 := by norm_num
        have h2 : (1 : ℚ) ≤ 2 ^ 53 - 1 := by norm_num
        exact le_trans two_zpow_le_tenth (le_trans h1 (by linarith))
      rcases roundToDouble_neg_rel (T * 1000) hxlow hxneg with hR | ⟨R, hR, hRle⟩
      · left
        rw [hR]
        simp [JSNumber.sub]
      · rw [hR]
        simp only [JSNumber.sub]
        have hRb : R ≤ -2 ^ 53 + 2 := by
          have e : T * 1000 - T * 1000 / 2 ^ 53 = T * 1000 * (1 - 1 / 2 ^ 53) := by ring
          have h4 : T * 1000 * (1 - 1 / 2 ^ 53) ≤ (-2 ^ 53 + 1) * (1 - 1 / 2 ^ 53) :=
            mul_le_mul_of_nonneg_right hx (by norm_num)
          have h5 : ((-2 ^ 53 + 1 : ℚ)) * (1 - 1 / 2 ^ 53) ≤ -2 ^ 53 + 2 := by norm_num
          rw [e] at hRle
          linarith
        exact hneg _ (by
          have : (-2 ^ 53 + 2 : ℚ) + 8640000000000000 ≤ -1 := by norm_num
          linarith)

/-! ## Beyond the exact range -/

theorem roundHalfEven_half_even (m : ℤ) (hm : m % 2 = 0) :
    roundHalfEven ((m : ℚ) + 1 / 2) = m := by
  have hf : ⌊(m : ℚ) + 1 / 2⌋ = m := by
    rw [Int.floor_eq_iff]
    constructor <;> linarith
  unfold roundHalfEven
  simp only []
  rw [hf, if_neg (by norm_num), if_neg (by norm_num), if_pos hm]

theorem roundToDouble_eq_of_significand (x : ℚ) (e m : ℤ) (h1 : (2 : ℚ) ^ e ≤ |x|)
    (h2 : |x| < (2 : ℚ) ^ (e + 1)) (he : -1022 ≤ e)
    (hm : roundHalfEven (x / 2 ^ (e - 52)) = m) (hr : |(m : ℚ) * 2 ^ (e - 52)| < 2 ^ 1024) :
    roundToDouble x = JSNumber.fin (m * 2 ^ (e - 52)) := by
  have hx : x ≠ 0 := by
    intro h0
    rw [h0, abs_zero] at h1
    exact absurd h1 (not_le.2 (by positivity))
  unfold roundToDouble
  rw [if_neg hx]
  simp only []
  rw [log_two_eq_of |x| e h1 h2, max_eq_left he, hm, if_neg (not_le.2 hr)]

/-- The product `timestamp * 1000` is rounded once it passes `2^53`: at the
clock 1700000000000 the timestamps 2000000000000000 and 2000000000003600, one
hour apart, give countdowns one second apart. -/
theorem generateCountDown_beyond_exact_range :
    generateCountDown 2000000000000000 1700000000000 = "20m0s" ∧
      generateCountDown 2000000000003600 1700000000000 = "19m59s" := by
  have hN : toNumber 1700000000000 = JSNumber.fin 1700000000000 := by
    have := roundToDouble_intCast 1700000000000 (by norm_num)
    simpa [toNumber] using this
  have hT0 : toNumber 2000000000000000 = JSNumber.fin 2000000000000000 := by
    have := roundToDouble_intCast 2000000000000000 (by norm_num)
    simpa [toNumber] using this
  have hT1 : toNumber 2000000000003600 = JSNumber.fin 2000000000003600 := by
    have := roundToDouble_intCast 2000000000003600 (by norm_num)
    simpa [toNumber] using this
  have hP0 : roundToDouble ((2000000000000000 : ℚ) * 1000) = JSNumber.fin 2000000000000000000 := by
    have := roundToDouble_eq_of ((2000000000000000 : ℚ) * 1000) 60 7812500000000000
      (by norm_num [abs_of_pos]) (by norm_num [abs_of_pos]) (by norm_num) (by norm_num)
      (by norm_num)
    rw [this]
    norm_num
  have hP1 : roundToDouble ((2000000000003600 : ℚ) * 1000) = JSNumber.fin 2000000000003599872 := by
    have hh : (2000000000003600 : ℚ) * 1000 / 2 ^ ((60 : ℤ) - 52)
        = ((7812500000014062 : ℤ) : ℚ) + 1 / 2 := by norm_num
    have := roundToDouble_eq_of_significand ((2000000000003600 : ℚ) * 1000) 60 7812500000014062
      (by norm_num [abs_of_pos]) (by norm_num [abs_of_pos]) (by norm_num)
      (by rw [hh]; exact roundHalfEven_half_even _ (by decide))
      (by norm_num)
    rw [this]
    norm_num
  have hD0 : roundToDouble ((2000000000000000000 : ℚ) - 1700000000000)
      = JSNumber.fin ((1999998300000000000 : ℤ) : ℚ) := by
    have := roundToDouble_eq_of ((2000000000000000000 : ℚ) - 1700000000000) 60 7812493359375000
      (by norm_num [abs_of_pos]) (by norm_num [abs_of_pos]) (by norm_num) (by norm_num)
      (by norm_num)
    rw [this]
    norm_num
  have hD1 : roundToDouble ((2000000000003599872 : ℚ) - 1700000000000)
      = JSNumber.fin ((1999998300003599872 : ℤ) : ℚ) := by
    have := roundToDouble_eq_of ((2000000000003599872 : ℚ) - 1700000000000) 60 7812493359389062
      (by norm_num [abs_of_pos]) (by norm_num [abs_of_pos]) (by norm_num) (by norm_num)
      (by norm_num)
    rw [this]
    norm_num
  have hC0 : countDownDifference 2000000000000000 1700000000000
      = JSNumber.fin ((1999998300000000000 : ℤ) : ℚ) :=
    countDownDifference_eq _ _ _ _ _ _ hT0 hP0 hN hD0
  have hC1 : countDownDifference 2000000000003600 1700000000000
      = JSNumber.fin ((1999998300003599872 : ℤ) : ℚ) :=
    countDownDifference_eq _ _ _ _ _ _ hT1 hP1 hN hD1
  constructor
  · obtain ⟨hm, hs⟩ := countDown_parts 1999998300000000000 (by norm_num)
    rw [generateCountDown_of_pos _ _ 1999998300000000000 hC0 (by norm_num), hm, hs]
    norm_num
    decide
  · obtain ⟨hm, hs⟩ := countDown_parts 1999998300003599872 (by norm_num)
    rw [generateCountDown_of_pos _ _ 1999998300003599872 hC1 (by norm_num), hm, hs]
    norm_num
    decide

/-! ## The amount conversion -/

theorem displayAmount_of_toNumber (b : ℤ) (r : ℚ) (h : toNumber b = JSNumber.fin r) :
    displayAmount b = roundToDouble (r / 10 ^ 18) := by
  unfold displayAmount
  rw [h]
  simp [JSNumber.div, tenPow18]

/-- Away from zero and below `2^1023` in magnitude the conversion is finite
and within relative error `2^-51` of the exact quotient. -/
theorem displayAmount_error (b : ℤ) (hb : b ≠ 0) (h : |(b : ℚ)| < 2 ^ 1023) :
    ∃ d : ℚ, displayAmount b = JSNumber.fin d ∧
      |d - (b : ℚ) / 10 ^ 18| ≤ |(b : ℚ)| / 10 ^ 18 / 2 ^ 51 := by
  have h1 : (1 : ℚ) ≤ |(b : ℚ)| := by
    have : (1 : ℤ) ≤ |b| := Int.one_le_abs hb
    exact_mod_cast this
  have hlow : (2 : ℚ) ^ (-1022 : ℤ) ≤ |(b : ℚ)| :=
    le_trans (le_trans two_zpow_le_tenth (by norm_num)) h1
  obtain ⟨r, hr, hre⟩ := roundToDouble_error (b : ℚ) hlow h
  have hr1 : |r| ≤ |(b : ℚ)| + |(b : ℚ)| / 2 ^ 53 := by
    have := abs_sub_abs_le_abs_sub r (b : ℚ)
    linarith
  have hr2 : |(b : ℚ)| - |(b : ℚ)| / 2 ^ 53 ≤ |r| := by
    have := abs_sub_abs_le_abs_sub (b : ℚ) r
    rw [abs_sub_comm] at this
    linarith
  have hx : |r / 10 ^ 18| = |r| / 10 ^ 18 := by
    rw [abs_div, abs_of_pos (by positivity : (0 : ℚ) < 10 ^ 18)]
  have hxlow : (2 : ℚ) ^ (-1022 : ℤ) ≤ |r / 10 ^ 18| := by
    rw [hx]
    refine le_trans two_zpow_le_tenth ?_
    apply div_le_div_of_nonneg_right _ (by positivity)
    have : |(b : ℚ)| / 2 ^ 53 ≤ |(b : ℚ)| / 2 := by
      apply div_le_div_of_nonneg_left (abs_nonneg _) (by norm_num) (by norm_num)
    linarith
  have hxhigh : |r / 10 ^ 18| < 2 ^ 1023 := by
    rw [hx, div_lt_iff₀ (by positivity)]
    have : |(b : ℚ)| / 2 ^ 53 ≤ |(b : ℚ)| := div_le_self (abs_nonneg _) (by norm_num)
    have h3 : (2 : ℚ) ^ 1023 + 2 ^ 1023 ≤ 2 ^ 1023 * 10 ^ 18 := by norm_num
    linarith
  obtain ⟨d, hd, hde⟩ := roundToDouble_error (r / 10 ^ 18) hxlow hxhigh
  refine ⟨d, by rw [displayAmount_of_toNumber b r hr, hd], ?_⟩
  have hsplit : d - (b : ℚ) / 10 ^ 18 = (d - r / 10 ^ 18) + (r - b) / 10 ^ 18 := by ring
  have h4 : |(r - (b : ℚ)) / 10 ^ 18| = |r - b| / 10 ^ 18 := by
    rw [abs_div, abs_of_pos (by positivity : (0 : ℚ) < 10 ^ 18)]
  have h5 : |r - (b : ℚ)| / 10 ^ 18 ≤ |(b : ℚ)| / 2 ^ 53 / 10 ^ 18 :=
    div_le_div_of_nonneg_right hre (by positivity)
  have h6 : |r| / 10 ^ 18 / 2 ^ 53 ≤ (|(b : ℚ)| + |(b : ℚ)| / 2 ^ 53) / 10 ^ 18 / 2 ^ 53 := by
    apply div_le_div_of_nonneg_right _ (by positivity)
    exact div_le_div_of_nonneg_right hr1 (by positivity)
  rw [hx] at hde
  have hnn : 0 ≤ |(b : ℚ)| := abs_nonneg _
  calc |d - (b : ℚ) / 10 ^ 18|
      = |(d - r / 10 ^ 18) + (r - b) / 10 ^ 18| := by rw [hsplit]
    _ ≤ |d - r / 10 ^ 18| + |(r - b) / 10 ^ 18| := abs_add _ _
    _ ≤ (|(b : ℚ)| + |(b : ℚ)| / 2 ^ 53) / 10 ^ 18 / 2 ^ 53 + |(b : ℚ)| / 2 ^ 53 / 10 ^ 18 := by
        rw [h4]; linarith
    _ ≤ |(b : ℚ)| / 10 ^ 18 / 2 ^ 51 := by
        have e1 : (|(b : ℚ)| + |(b : ℚ)| / 2 ^ 53) / 10 ^ 18 / 2 ^ 53 + |(b : ℚ)| / 2 ^ 53 / 10 ^ 18
            = |(b : ℚ)| * ((1 + 1 / 2 ^ 53) / 10 ^ 18 / 2 ^ 53 + 1 / 2 ^ 53 / 10 ^ 18) := by ring
        have e2 : |(b : ℚ)| / 10 ^ 18 / 2 ^ 51 = |(b : ℚ)| * (1 / 10 ^ 18 / 2 ^ 51) := by ring
        rw [e1, e2]
        exact mul_le_mul_of_nonneg_left (by norm_num) hnn

/-- A negative amount converts to a negative number, never to a failure. -/
theorem displayAmount_neg (b : ℤ) (hb : b < 0) :
    displayAmount b = JSNumber.negInf ∨
      ∃ d : ℚ, displayAmount b = JSNumber.fin d ∧ d < 0 := by
  have hq : (b : ℚ) < 0 := by exact_mod_cast hb
  have hq1 : (b : ℚ) ≤ -1 := by
    have : b ≤ -1 := by omega
    exact_mod_cast this
  have hlow : (2 : ℚ) ^ (-1022 : ℤ) ≤ |(b : ℚ)| := by
    rw [abs_of_neg hq]
    have h1 : (1 : ℚ) / 2 / 10 ^ 18 ≤ 1 := by norm_num
    exact le_trans two_zpow_le_tenth (le_trans h1 (by linarith))
  rcases roundToDouble_neg (b : ℚ) hlow hq with h | ⟨r, hr, hle⟩
  · left
    unfold displayAmount toNumber
    rw [h]
    simp [JSNumber.div, tenPow18]
  · have hr0 : r / 10 ^ 18 < 0 := div_neg_of_neg_of_pos (by linarith) (by positivity)
    have hrlow : (2 : ℚ) ^ (-1022 : ℤ) ≤ |r / 10 ^ 18| := by
      rw [abs_of_neg hr0]
      refine le_trans two_zpow_le_tenth ?_
      rw [← neg_div]
      exact div_le_div_of_nonneg_right (by linarith) (by positivity)
    rw [displayAmount_of_toNumber b r hr]
    rcases roundToDouble_neg (r / 10 ^ 18) hrlow hr0 with h | ⟨d, hd, hdle⟩
    · left; exact h
    · right; exact ⟨d, hd, by linarith⟩

/-- Integers within 63 of `10^18` all read as the double `10^18`. -/
theorem toNumber_near_tenPow18 (k : ℤ) (h1 : -64 < k) (h2 : k < 64) :
    toNumber (10 ^ 18 + k) = JSNumber.fin (10 ^ 18) := by
  have hk1 : (-64 : ℚ) < k := by exact_mod_cast h1
  have hk2 : (k : ℚ) < 64 := by exact_mod_cast h2
  have hpos : (0 : ℚ) < 10 ^ 18 + k := by linarith [show (64 : ℚ) < 10 ^ 18 by norm_num]
  have h := roundToDouble_eq_of ((10 : ℚ) ^ 18 + k) 59 7812500000000000
    (by rw [abs_of_pos hpos]; norm_num; linarith)
    (by rw [abs_of_pos hpos]; norm_num; linarith)
    (by norm_num)
    (by
      have : ((10 : ℚ) ^ 18 + k) / 2 ^ ((59 : ℤ) - 52) - (7812500000000000 : ℤ) = k / 128 := by
        norm_num
        ring
      rw [this, abs_lt]
      constructor <;> linarith)
    (by norm_num)
  have hcast : ((10 ^ 18 + k : ℤ) : ℚ) = (10 : ℚ) ^ 18 + k := by push_cast; rfl
  unfold toNumber
  rw [hcast, h]
  norm_num

theorem displayAmount_near_tenPow18 (k : ℤ) (h1 : -64 < k) (h2 : k < 64) :
    displayAmount (10 ^ 18 + k) = JSNumber.fin 1 := by
  rw [displayAmount_of_toNumber _ _ (toNumber_near_tenPow18 k h1 h2)]
  have := roundToDouble_intCast 1 (by norm_num)
  simpa using this

/-! ## The address prefix -/

theorem slice_zero_eq_take (s : JSString) (n : ℕ) :
    slice s 0 n = s.take n := by
  unfold slice
  simp only [lt_irrefl, if_false, Int.natCast_nonneg, not_lt.2 (Int.natCast_nonneg n)]
  rw [min_eq_left (Int.natCast_nonneg _)]
  by_cases h : (0 : ℤ) ≥ min (n : ℤ) (s.length : ℤ)
  · rw [if_pos h]
    have h0 : n = 0 ∨ s.length = 0 := by
      rcases le_total (n : ℤ) (s.length : ℤ) with hc | hc
      · rw [min_eq_left hc] at h; left; omega
      · rw [min_eq_right hc] at h; right; omega
    rcases h0 with h0 | h0
    · subst h0; rfl
    · rw [List.length_eq_zero.1 h0, List.take_nil]
  · rw [if_neg h]
    rw [Int.toNat_zero, List.drop_zero]
    rcases le_total (n : ℤ) (s.length : ℤ) with hc | hc
    · rw [min_eq_left hc]
      simp
    · rw [min_eq_right hc]
      simp only [sub_zero, Int.toNat_ofNat]
      rw [List.take_of_length_le (le_refl _), List.take_of_length_le]
      omega

/-- An address of one letter and twenty characters above `U+FFFF` has 41 code
units; its first 25 are the letter and twelve of those characters. -/
theorem slice_astral_address :
    slice (utf16 ("a" ++ String.mk (List.replicate 20 (Char.ofNat 128512)))) 0 25
      = utf16 ("a" ++ String.mk (List.replicate 12 (Char.ofNat 128512))) := by
  decide

theorem displayAmount_zero : displayAmount 0 = JSNumber.fin 0 := by
  simp [displayAmount, toNumber, roundToDouble, JSNumber.div, tenPow18]

/-! ## Claims on the countdown -/

/-- Claim C1: when the target is not after the current time, that is when
`timestamp * 1000 - now ≤ 0`, the countdown is the expired string `"0m0s"`,
which is the rendering of minutes 0 and seconds 0.  The clock holds a time
value, an integer of magnitude at most 8640000000000000. -/
theorem generateCountDown_expired (timestamp now : Int) (hnow : |now| ≤ 8640000000000000)
    (h : timestamp * 1000 - now ≤ 0) :
    generateCountDown timestamp now = "0m0s" ∧ renderCountDown 0 0 = "0m0s" :=
  ⟨generateCountDown_of_nonpos timestamp now (countDownDifference_nonpos timestamp now hnow h),
    by decide⟩

/-- Witness of C1 at target 1000 s and current time 2000 s. -/
theorem generateCountDown_expired_witness :
    |((2000 * 1000 : Int))| ≤ 8640000000000000 ∧ (1000 : Int) * 1000 - 2000 * 1000 ≤ 0 ∧
      (generateCountDown 1000 (2000 * 1000) = "0m0s" ∧ renderCountDown 0 0 = "0m0s") :=
  ⟨by decide, by decide, generateCountDown_expired 1000 (2000 * 1000) (by decide) (by decide)⟩

/-- Claim C2: for a current time of `now` seconds (a time value once in
milliseconds) and `0 < d < 3600`, the countdown to `now + d` is not expired,
its minutes are `d / 60`, its seconds `d % 60`, it is the decimal numeral of
the minutes, `m`, the decimal numeral of the seconds, `s`, and `d = 330` gives
`"5m30s"`. -/
theorem generateCountDown_within_hour (now d : Int) (hnow : |now * 1000| ≤ 8640000000000000)
    (h0 : 0 < d) (h1 : d < 3600) :
    ¬ ((now + d) * 1000 - now * 1000 ≤ 0) ∧
      countDownMinutes ((now + d) * 1000 - now * 1000) = d / 60 ∧
      countDownSeconds ((now + d) * 1000 - now * 1000) = d % 60 ∧
      generateCountDown (now + d) (now * 1000)
        = toString (d / 60) ++ "m" ++ toString (d % 60) ++ "s" ∧
      (d = 330 → generateCountDown (now + d) (now * 1000) = "5m30s") ∧
      (d = 59 → generateCountDown (now + d) (now * 1000) = "0m59s") := by
  have hdiff : (now + d) * 1000 - now * 1000 = d * 1000 := by ring
  have hpos : 0 < d * 1000 := by omega
  obtain ⟨hm, hs⟩ := countDown_parts (d * 1000) hpos
  have hm' : countDownMinutes (d * 1000) = d / 60 := by rw [hm]; omega
  have hs' : countDownSeconds (d * 1000) = d % 60 := by rw [hs]; omega
  have hgen : generateCountDown (now + d) (now * 1000)
      = toString (d / 60) ++ "m" ++ toString (d % 60) ++ "s" := by
    rw [abs_le] at hnow
    rw [generateCountDown_exact (now + d) (now * 1000)
      (by rw [abs_lt]; constructor <;> omega)
      (by rw [abs_le]; constructor <;> omega)
      (by rw [abs_le]; constructor <;> omega),
      hdiff, if_neg (by omega), hm', hs']
    rfl
  rw [hdiff]
  refine ⟨by omega, hm', hs', hgen, ?_, ?_⟩
  · intro hd
    rw [hgen, hd]
    decide
  · intro hd
    rw [hgen, hd]
    decide

/-- Witness of C2 at `now = 1700000000` and `d = 330`. -/
theorem generateCountDown_within_hour_witness :
    |((1700000000 * 1000 : Int))| ≤ 8640000000000000 ∧ (0 : Int) < 330 ∧ (330 : Int) < 3600 ∧
      (¬ (((1700000000 : Int) + 330) * 1000 - 1700000000 * 1000 ≤ 0) ∧
      countDownMinutes (((1700000000 : Int) + 330) * 1000 - 1700000000 * 1000) = 330 / 60 ∧
      countDownSeconds (((1700000000 : Int) + 330) * 1000 - 1700000000 * 1000) = 330 % 60 ∧
      generateCountDown (1700000000 + 330) (1700000000 * 1000)
        = toString ((330 : Int) / 60) ++ "m" ++ toString ((330 : Int) % 60) ++ "s" ∧
      ((330 : Int) = 330 → generateCountDown (1700000000 + 330) (1700000000 * 1000) = "5m30s") ∧
      ((330 : Int) = 59 → generateCountDown (1700000000 + 330) (1700000000 * 1000) = "0m59s")) :=
  ⟨by decide, by decide, by decide,
    generateCountDown_within_hour 1700000000 330 (by decide) (by decide) (by decide)⟩

/-- Claim C3: hours are discarded. For a positive remaining duration `diffMs`,
the minutes, the seconds and the output string are the same for `diffMs` and
for `diffMs + 3600000`; with a time value on the clock and a remaining
duration that stays within `2^53`, the exact range of the subtraction, the
countdown is the text of those minutes and seconds and a target one hour later
gives the same countdown. -/
theorem countDown_discards_hours (diffMs : Int) (h : 0 < diffMs) :
    countDownMinutes (diffMs + 3600000) = countDownMinutes diffMs ∧
      countDownSeconds (diffMs + 3600000) = countDownSeconds diffMs ∧
      renderCountDown (countDownMinutes (diffMs + 3600000)) (countDownSeconds (diffMs + 3600000))
        = renderCountDown (countDownMinutes diffMs) (countDownSeconds diffMs) ∧
      ∀ timestamp now : Int, |now| ≤ 8640000000000000 → diffMs + 3600000 ≤ 2 ^ 53 →
        timestamp * 1000 - now = diffMs →
        generateCountDown timestamp now
          = toString (countDownMinutes diffMs) ++ "m" ++ toString (countDownSeconds diffMs)
              ++ "s" ∧
        generateCountDown (timestamp + 3600) now = generateCountDown timestamp now := by
  obtain ⟨hm, hs⟩ := countDown_parts diffMs h
  obtain ⟨hm1, hs1⟩ := countDown_parts (diffMs + 3600000) (by omega)
  have hmin : countDownMinutes (diffMs + 3600000) = countDownMinutes diffMs := by
    rw [hm, hm1]; omega
  have hsec : countDownSeconds (diffMs + 3600000) = countDownSeconds diffMs := by
    rw [hs, hs1]; omega
  refine ⟨hmin, hsec, by rw [hmin, hsec], ?_⟩
  intro timestamp now hnow hsafe hd
  have hd1 : (timestamp + 3600) * 1000 - now = diffMs + 3600000 := by rw [← hd]; ring
  rw [abs_le] at hnow
  have e0 : generateCountDown timestamp now
      = renderCountDown (countDownMinutes diffMs) (countDownSeconds diffMs) := by
    rw [generateCountDown_exact timestamp now
      (by rw [abs_lt]; constructor <;> omega)
      (by rw [abs_le]; constructor <;> omega)
      (by rw [abs_le]; constructor <;> omega),
      hd, if_neg (by omega)]
  have e1 : generateCountDown (timestamp + 3600) now
      = renderCountDown (countDownMinutes (diffMs + 3600000))
          (countDownSeconds (diffMs + 3600000)) := by
    rw [generateCountDown_exact (timestamp + 3600) now
      (by rw [abs_lt]; constructor <;> omega)
      (by rw [abs_le]; constructor <;> omega)
      (by rw [abs_le]; constructor <;> omega),
      hd1, if_neg (by omega)]
  exact ⟨by rw [e0]; rfl, by rw [e1, e0, hmin, hsec]⟩

/-- Witness of C3: at the clock 1700000000000 a target two minutes ahead and
the targets one hour and two hours later all show `"2m0s"`. -/
theorem countDown_discards_hours_witness :
    (0 : Int) < 120000 ∧
      (countDownMinutes (120000 + 3600000) = countDownMinutes 120000 ∧
      countDownSeconds (120000 + 3600000) = countDownSeconds 120000 ∧
      renderCountDown (countDownMinutes (120000 + 3600000)) (countDownSeconds (120000 + 3600000))
        = renderCountDown (countDownMinutes 120000) (countDownSeconds 120000) ∧
      ∀ timestamp now : Int, |now| ≤ 8640000000000000 → (120000 : Int) + 3600000 ≤ 2 ^ 53 →
        timestamp * 1000 - now = 120000 →
        generateCountDown timestamp now
          = toString (countDownMinutes 120000) ++ "m" ++ toString (countDownSeconds 120000)
              ++ "s" ∧
        generateCountDown (timestamp + 3600) now = generateCountDown timestamp now) ∧
      generateCountDown 1700000120 1700000000000 = "2m0s" ∧
      generateCountDown (1700000120 + 3600) 1700000000000 = "2m0s" ∧
      generateCountDown (1700003720 + 3600) 1700000000000 = "2m0s" := by
  have h1 := (countDown_discards_hours 120000 (by decide)).2.2.2 1700000120 1700000000000
    (by decide) (by decide) (by decide)
  have h2 := (countDown_discards_hours 3720000 (by decide)).2.2.2 1700003720 1700000000000
    (by decide) (by decide) (by decide)
  have e0 : generateCountDown 1700000120 1700000000000 = "2m0s" := by
    rw [h1.1]
    decide
  have e1 : generateCountDown (1700000120 + 3600) 1700000000000 = "2m0s" := by
    rw [h1.2, e0]
  have e2 : generateCountDown (1700003720 + 3600) 1700000000000 = "2m0s" := by
    rw [h2.2]
    exact e1
  exact ⟨by decide, countDown_discards_hours 120000 (by decide), e0, e1, e2⟩

/-- Claim C9: for a positive `diffMs` the minutes and seconds computed by
`generateCountDown` equal the formulas of the specification,
`floor(diffMs / 60000) mod 60` and `floor((diffMs mod 60000) / 1000)`. -/
theorem countDown_refines_spec (diffMs : Int) (h : 0 < diffMs) :
    countDownMinutes diffMs = specMinutes diffMs ∧
      countDownSeconds diffMs = specSeconds diffMs := by
  obtain ⟨hm, hs⟩ := countDown_parts diffMs h
  unfold specMinutes specSeconds
  rw [hm, hs, Int.fdiv_eq_ediv _ (by norm_num), Int.fdiv_eq_ediv _ (by norm_num)]
  constructor <;> omega

/-- Witness of C9 at 2 h 2 min 5.25 s. -/
theorem countDown_refines_spec_witness :
    (0 : Int) < 7325250 ∧
      (countDownMinutes 7325250 = specMinutes 7325250 ∧
      countDownSeconds 7325250 = specSeconds 7325250) :=
  ⟨by decide, countDown_refines_spec 7325250 (by decide)⟩

/-- Claim C10: for a positive `diffMs` the computed pair is the base-60
decomposition of the whole seconds remaining within the hour: both lie in
`0..59` and `60 * minutes + seconds = floor(diffMs / 1000) mod 3600`. -/
theorem countDown_base60 (diffMs : Int) (h : 0 < diffMs) :
    0 ≤ countDownMinutes diffMs ∧ countDownMinutes diffMs ≤ 59 ∧
      0 ≤ countDownSeconds diffMs ∧ countDownSeconds diffMs ≤ 59 ∧
      60 * countDownMinutes diffMs + countDownSeconds diffMs
        = (Int.fdiv diffMs 1000) % 3600 := by
  obtain ⟨hm, hs⟩ := countDown_parts diffMs h
  rw [hm, hs, Int.fdiv_eq_ediv _ (by norm_num)]
  refine ⟨by omega, by omega, by omega, by omega, by omega⟩

/-- Witness of C10 at 2 h 2 min 5.25 s. -/
theorem countDown_base60_witness :
    (0 : Int) < 7325250 ∧
      (0 ≤ countDownMinutes 7325250 ∧ countDownMinutes 7325250 ≤ 59 ∧
      0 ≤ countDownSeconds 7325250 ∧ countDownSeconds 7325250 ≤ 59 ∧
      60 * countDownMinutes 7325250 + countDownSeconds 7325250
        = (Int.fdiv 7325250 1000) % 3600) :=
  ⟨by decide, countDown_base60 7325250 (by decide)⟩

/-! ## Claims on the profile view -/

/-- Claim C5: for every cached record the view is built and its address is
the prefix of the stored address of length `min 25 (length address)`, lengths
counted in UTF-16 code units as `slice` and `length` count them; a short or
empty address is returned whole, nothing fails. -/
theorem truncatedAddress_take (u : User) (now₁ now₂ : Int) :
    ∃ v : ProfileView, UserProfileHtml (some u) now₁ now₂ = Except.ok v ∧
      v.address = slice u.address 0 25 ∧
      v.address = u.address.take 25 ∧
      v.address <+: u.address ∧
      v.address.length = min 25 u.address.length := by
  have hs : slice u.address 0 25 = u.address.take 25 := by
    rw [show (25 : ℤ) = ((25 : ℕ) : ℤ) from rfl, slice_zero_eq_take]
  refine ⟨_, rfl, rfl, ?_, ?_, ?_⟩
  · show slice u.address 0 25 = _
    exact hs
  · show slice u.address 0 25 <+: _
    rw [hs]
    exact List.take_prefix _ _
  · show (slice u.address 0 25).length = _
    rw [hs]
    exact List.length_take 25 _

/-- Claim C7: with no cached record (`User` is `null`) building the view
fails for every clock value, with the `TypeError` of reading `User.address`;
no view is produced. -/
theorem UserProfileHtml_absent_fails (now₁ now₂ : Int) :
    UserProfileHtml none now₁ now₂ = Except.error JSError.TypeError ∧
      ∀ v : ProfileView, UserProfileHtml none now₁ now₂ ≠ Except.ok v := by
  refine ⟨rfl, ?_⟩
  intro v hv
  cases hv

/-! ## Claims on the amounts -/

/-- Counterexample to C4 as stated: one token and one base unit is displayed
as exactly 1, not as `(10^18 + 1) / 10^18`. -/
theorem displayAmount_not_exact :
    displayAmount (10 ^ 18 + 1) = JSNumber.fin 1 ∧
      displayAmount (10 ^ 18 + 1) ≠ JSNumber.fin (((10 ^ 18 + 1 : ℤ) : ℚ) / 10 ^ 18) := by
  have h := displayAmount_near_tenPow18 1 (by norm_num) (by norm_num)
  refine ⟨h, ?_⟩
  rw [h]
  intro hc
  injection hc with hc
  norm_num at hc

/-- Claim C4, amended: for every non-negative integer `baseUnits` below
`2^1023` the displayed amount is a finite double within relative error `2^-51`
of `baseUnits / 10^18`, and for `baseUnits = 0` it is exactly 0. -/
theorem displayAmount_approx (baseUnits : ℤ) (h0 : 0 ≤ baseUnits) (h1 : baseUnits < 2 ^ 1023) :
    ∃ d : ℚ, displayAmount baseUnits = JSNumber.fin d ∧
      |d - (baseUnits : ℚ) / 10 ^ 18| ≤ (baseUnits : ℚ) / 10 ^ 18 / 2 ^ 51 ∧
      (baseUnits = 0 → d = 0) := by
  by_cases hb : baseUnits = 0
  · subst hb
    exact ⟨0, displayAmount_zero, by simp, fun _ => rfl⟩
  · have hq0 : (0 : ℚ) ≤ baseUnits := by exact_mod_cast h0
    have hq1 : (baseUnits : ℚ) < 2 ^ 1023 := by
      have h2 : ((2 : ℤ) : ℚ) = 2 := by norm_num
      rw [← h2, ← Int.cast_pow]
      exact Int.cast_lt.2 h1
    obtain ⟨d, hd, he⟩ := displayAmount_error baseUnits hb (by rw [abs_of_nonneg hq0]; exact hq1)
    rw [abs_of_nonneg hq0] at he
    exact ⟨d, hd, he, fun h => absurd h hb⟩

/-- Witness of amended C4 at one token. -/
theorem displayAmount_approx_witness :
    (0 : ℤ) ≤ 10 ^ 18 ∧ (10 ^ 18 : ℤ) < 2 ^ 1023 ∧
      ∃ d : ℚ, displayAmount (10 ^ 18) = JSNumber.fin d ∧
        |d - ((10 ^ 18 : ℤ) : ℚ) / 10 ^ 18| ≤ ((10 ^ 18 : ℤ) : ℚ) / 10 ^ 18 / 2 ^ 51 ∧
        ((10 ^ 18 : ℤ) = 0 → d = 0) :=
  ⟨by norm_num, by norm_num, displayAmount_approx (10 ^ 18) (by norm_num) (by norm_num)⟩

/-- Counterexample to C6 as stated: the negative amount `-10^18` is converted
to the number `-1`, and the view is built with it. -/
theorem negative_amount_returns_number :
    displayAmount (-10 ^ 18) = JSNumber.fin (-1) ∧
      UserProfileHtml (some ⟨[48, 120], 0, 0, 0, 0, -10 ^ 18⟩) 0 0
        = Except.ok ⟨[48, 120], "0m0s", "0m0s", JSNumber.fin 0, JSNumber.fin 0,
            JSNumber.fin (-1)⟩ := by
  have hto : toNumber (-10 ^ 18) = JSNumber.fin (-10 ^ 18) := by
    have h := roundToDouble_eq_of (-(10 : ℚ) ^ 18) 59 (-7812500000000000)
      (by rw [abs_neg, abs_of_pos (by positivity)]; norm_num)
      (by rw [abs_neg, abs_of_pos (by positivity)]; norm_num)
      (by norm_num) (by norm_num) (by norm_num)
    have hcast : ((-10 ^ 18 : ℤ) : ℚ) = -(10 : ℚ) ^ 18 := by push_cast; rfl
    unfold toNumber
    rw [hcast, h]
    norm_num
  have hd : displayAmount (-10 ^ 18) = JSNumber.fin (-1) := by
    rw [displayAmount_of_toNumber _ _ hto]
    have := roundToDouble_intCast (-1) (by norm_num)
    simpa using this
  have hc : generateCountDown 0 0 = "0m0s" :=
    generateCountDown_of_nonpos 0 0
      (countDownDifference_nonpos 0 0 (by norm_num) (by norm_num))
  have hs : slice ([48, 120] : JSString) 0 25 = [48, 120] := by decide
  refine ⟨hd, ?_⟩
  unfold UserProfileHtml
  simp only [hd, displayAmount_zero, hc, hs]

/-- Claim C6, amended: a negative integer amount is not rejected. It is
converted to a negative number (negative infinity when it is below the double
range), and the view of a record holding it is built with that number. -/
theorem displayAmount_negative (baseUnits : ℤ) (h : baseUnits < 0) :
    (displayAmount baseUnits = JSNumber.negInf ∨
        ∃ d : ℚ, displayAmount baseUnits = JSNumber.fin d ∧ d < 0) ∧
      ∀ (u : User) (now₁ now₂ : Int), u.stakeAmount = baseUnits →
        ∃ v : ProfileView, UserProfileHtml (some u) now₁ now₂ = Except.ok v ∧
          v.stakeAmount = displayAmount baseUnits := by
  refine ⟨displayAmount_neg baseUnits h, ?_⟩
  intro u now₁ now₂ hu
  exact ⟨_, rfl, by rw [← hu]⟩

/-- Witness of amended C6 at `-5` base units. -/
theorem displayAmount_negative_witness :
    (-5 : ℤ) < 0 ∧
      ((displayAmount (-5) = JSNumber.negInf ∨
        ∃ d : ℚ, displayAmount (-5) = JSNumber.fin d ∧ d < 0) ∧
      ∀ (u : User) (now₁ now₂ : Int), u.stakeAmount = -5 →
        ∃ v : ProfileView, UserProfileHtml (some u) now₁ now₂ = Except.ok v ∧
          v.stakeAmount = displayAmount (-5)) :=
  ⟨by decide, displayAmount_negative (-5) (by decide)⟩

/-- Counterexample to C8 as stated: one token and three base units is
displayed as 1, which scales back to `10^18`, three units away. -/
theorem round_trip_off_by_three :
    displayAmount (10 ^ 18 + 3) = JSNumber.fin 1 ∧
      |round ((1 : ℚ) * 10 ^ 18) - (10 ^ 18 + 3 : ℤ)| = 3 ∧
      ¬ (∀ b : ℤ, 0 ≤ b → ∀ d : ℚ, displayAmount b = JSNumber.fin d →
          |round (d * 10 ^ 18) - b| ≤ 1) := by
  have h := displayAmount_near_tenPow18 3 (by norm_num) (by norm_num)
  have hr : round ((1 : ℚ) * 10 ^ 18) = (10 ^ 18 : ℤ) := by
    have : ((1 : ℚ) * 10 ^ 18) = ((10 ^ 18 : ℤ) : ℚ) := by push_cast; ring
    rw [this, round_intCast]
  have h3 : |round ((1 : ℚ) * 10 ^ 18) - (10 ^ 18 + 3 : ℤ)| = 3 := by
    rw [hr]
    norm_num
  refine ⟨h, h3, ?_⟩
  intro hall
  have := hall (10 ^ 18 + 3) (by norm_num) 1 h
  rw [h3] at this
  norm_num at this

/-- Claim C8, amended: for every non-negative integer `b` up to `2^53`, the
range a double holds exactly, the display value of `b` multiplied back by
`10^18` and rounded to an integer differs from `b` by at most one unit. -/
theorem round_trip_within_one (b : ℤ) (h0 : 0 ≤ b) (h1 : b ≤ 2 ^ 53) :
    ∃ d : ℚ, displayAmount b = JSNumber.fin d ∧ |round (d * 10 ^ 18) - b| ≤ 1 := by
  by_cases hb : b = 0
  · subst hb
    exact ⟨0, displayAmount_zero, by simp⟩
  · have hq0 : (0 : ℚ) ≤ b := by exact_mod_cast h0
    have hq1 : (b : ℚ) ≤ 2 ^ 53 := by exact_mod_cast h1
    have hto : toNumber b = JSNumber.fin b :=
      roundToDouble_intCast b (by rw [abs_of_nonneg h0]; exact h1)
    have h1q : (1 : ℚ) ≤ b := by
      have : (1 : ℤ) ≤ b := by omega
      exact_mod_cast this
    have hx : |(b : ℚ) / 10 ^ 18| = (b : ℚ) / 10 ^ 18 := abs_of_nonneg (by positivity)
    have hlow : (2 : ℚ) ^ (-1022 : ℤ) ≤ |(b : ℚ) / 10 ^ 18| := by
      rw [hx]
      refine le_trans two_zpow_le_tenth ?_
      exact div_le_div_of_nonneg_right (by linarith) (by positivity)
    have hhigh : |(b : ℚ) / 10 ^ 18| < 2 ^ 1023 := by
      rw [hx, div_lt_iff₀ (by positivity)]
      have : (2 : ℚ) ^ 53 < 2 ^ 1023 * 10 ^ 18 := by norm_num
      linarith
    obtain ⟨d, hd, he⟩ := roundToDouble_error ((b : ℚ) / 10 ^ 18) hlow hhigh
    refine ⟨d, by rw [displayAmount_of_toNumber b b hto, hd], ?_⟩
    rw [hx] at he
    have he1 : |d - (b : ℚ) / 10 ^ 18| ≤ 1 / 10 ^ 18 := by
      refine le_trans he ?_
      rw [div_div, div_le_div_iff₀ (by positivity) (by positivity)]
      have : (b : ℚ) * 10 ^ 18 ≤ 2 ^ 53 * 10 ^ 18 :=
        mul_le_mul_of_nonneg_right hq1 (by positivity)
      linarith
    have hscale : |d * 10 ^ 18 - (b : ℚ)| ≤ 1 := by
      have e : d * 10 ^ 18 - (b : ℚ) = (d - (b : ℚ) / 10 ^ 18) * 10 ^ 18 := by
        field_simp
      rw [e, abs_mul, abs_of_pos (by positivity : (0 : ℚ) < 10 ^ 18)]
      calc |d - (b : ℚ) / 10 ^ 18| * 10 ^ 18 ≤ 1 / 10 ^ 18 * 10 ^ 18 :=
            mul_le_mul_of_nonneg_right he1 (by positivity)
        _ = 1 := by norm_num
    rw [abs_le] at hscale
    rw [round_eq, abs_le]
    constructor
    · have : b - 1 ≤ ⌊d * 10 ^ 18 + 1 / 2⌋ := by
        rw [Int.le_floor]
        push_cast
        linarith
      linarith
    · have : ⌊d * 10 ^ 18 + 1 / 2⌋ < b + 2 := by
        rw [Int.floor_lt]
        push_cast
        linarith
      linarith

/-- Witness of amended C8 at `2^53` base units. -/
theorem round_trip_within_one_witness :
    (0 : ℤ) ≤ 2 ^ 53 ∧ (2 ^ 53 : ℤ) ≤ 2 ^ 53 ∧
      ∃ d : ℚ, displayAmount (2 ^ 53) = JSNumber.fin d ∧ |round (d * 10 ^ 18) - 2 ^ 53| ≤ 1 :=
  ⟨by norm_num, by norm_num, round_trip_within_one (2 ^ 53) (by norm_num) (by norm_num)⟩

end TokenStaking
